import Mathlib

/-!
Shallow embedding of the seekstream package (file.go, util.go).

The Go code is a single-writer / multi-reader stream backed by a temp
file.  We model it with explicit state passing under a sequential
semantics: each operation is an atomic function of the `File` state, and
an operation that would park on the `ready` channel with no concurrent
writer to wake it is mapped to the outcome `blocked`.

The unbuffered `ready` channel is modelled by two pieces of state: the
`done` flag (the channel is closed exactly when `done` is set, by
DoneWriting) and a count `waiters` of goroutines currently parked
receiving on it.  A non-blocking send (the `select`/`default` in Write)
hands the value to exactly one parked receiver when there is one and
falls through otherwise; closing the channel releases every parked
receiver.

Bytes are `Nat` (the code never inspects byte values), buffers handed to
a read are represented by their length (their prior contents are
overwritten), and the bytes a read delivers are returned as a list.
int64 fields (`r`, `w`, offsets) are `Int`.  Storage faults of the
backing os.File are not modelled: its operations fail exactly when the
handle is closed (plus the negative-offset errors os.File reports).
-/

namespace Seekstream

/-- Errors returned by the package (file.go) and by the backing os.File. -/
inductive Err where
  /-- errDoneWriting, "already done writing". -/
  | errDoneWriting
  /-- errAlreadyClosed, "file already closed" (File-level check in readCommon). -/
  | errAlreadyClosed
  /-- errInvalidOffset, "invalid offset". -/
  | errInvalidOffset
  /-- errInvalidWhence, "seek: invalid whence". -/
  | errInvalidWhence
  /-- io.EOF. -/
  | eof
  /-- os.ErrClosed reported by the backing os.File on a closed handle. -/
  | osErrClosed
  /-- The os.File error for a negative ReadAt/WriteAt offset. -/
  | osErrNegative
  /-- The os.File error for a Seek to a negative position. -/
  | osErrSeek
deriving DecidableEq, Repr

/-- Result of a call under the sequential semantics: the call returns a
value, or it parks on the `ready` channel (or spins) with nobody left to
wake it and never returns. -/
inductive Outcome (α : Type) where
  | ok : α → Outcome α
  | blocked : Outcome α
deriving DecidableEq, Repr

/-- The backing temporary file (an os.File): its contents, its sequential
read/seek cursor, and whether the handle has been closed. -/
structure OsFile where
  data : List Nat
  cursor : Int
  closed : Bool
deriving DecidableEq, Repr

/-- os.File.WriteAt: writes p at offset off, extending the file and
zero-filling any gap.  Fails on a closed handle or a negative offset;
otherwise the write is complete (storage faults are not modelled). -/
def OsFile.writeAt (fl : OsFile) (p : List Nat) (off : Int) : Nat × Option Err × OsFile :=
  if fl.closed then (0, some .osErrClosed, fl)
  else if off < 0 then (0, some .osErrNegative, fl)
  else
    let o := off.toNat
    (p.length, none,
      { fl with
          data := fl.data.take o ++ List.replicate (o - fl.data.length) 0 ++ p
            ++ fl.data.drop (o + p.length) })

/-- os.File.Read: reads up to len bytes at the handle's cursor, advancing
it; returns io.EOF only when a nonempty request gets zero bytes. -/
def OsFile.read (fl : OsFile) (len : Nat) : Nat × Option Err × List Nat × OsFile :=
  if fl.closed then (0, some .osErrClosed, [], fl)
  else
    let avail : Int := (fl.data.length : Int) - fl.cursor
    let n := min len avail.toNat
    let e := if n = 0 ∧ 0 < len then some Err.eof else none
    (n, e, (fl.data.drop fl.cursor.toNat).take n, { fl with cursor := fl.cursor + n })

/-- os.File.ReadAt: reads up to len bytes at offset off, without moving
the cursor; per the io.ReaderAt contract it returns io.EOF whenever fewer
than len bytes are delivered. -/
def OsFile.readAt (fl : OsFile) (len : Nat) (off : Int) : Nat × Option Err × List Nat :=
  if fl.closed then (0, some .osErrClosed, [])
  else if off < 0 then (0, some .osErrNegative, [])
  else
    let avail : Int := (fl.data.length : Int) - off
    let n := min len avail.toNat
    let e := if n < len then some Err.eof else none
    (n, e, (fl.data.drop off.toNat).take n)

/-- os.File.Seek: computes the new cursor from whence (0 = start,
1 = current, 2 = end), failing on a closed handle or a negative result.
On failure it returns position 0 and leaves the cursor unchanged.
(File.Seek only ever passes whence 0, 1 or 2; an unknown whence is
treated as 2 here, a branch no caller reaches.) -/
def OsFile.seek (fl : OsFile) (off : Int) (whence : Int) : Int × Option Err × OsFile :=
  if fl.closed then (0, some .osErrClosed, fl)
  else
    let pos : Int := if whence = 0 then off
      else if whence = 1 then fl.cursor + off
      else (fl.data.length : Int) + off
    if pos < 0 then (0, some .osErrSeek, fl)
    else (pos, none, { fl with cursor := pos })

/-- os.File.Close: fails on an already-closed handle. -/
def OsFile.close (fl : OsFile) : Option Err × OsFile :=
  if fl.closed then (some .osErrClosed, fl)
  else (none, { fl with closed := true })

/-- util.go subSlice, on buffer lengths: clamps the buffer to size when
size is smaller.  (Go would panic on a negative size; every call site
guards the argument to be nonnegative before it can matter.) -/
def subSlice (pLen : Nat) (size : Int) : Nat :=
  if size < (pLen : Int) then size.toNat else pLen

/-- The File struct of file.go.  `waiters` counts the goroutines parked
receiving on the unbuffered `ready` channel; the channel is closed
exactly when `done` is set. -/
structure File where
  file : OsFile
  r : Int
  w : Int
  done : Bool
  closed : Bool
  waiters : Nat
deriving DecidableEq, Repr

/-- NewFile, in the success case: a fresh empty temp file. -/
def File.newFile : File :=
  { file := { data := [], cursor := 0, closed := false }
    r := 0
    w := 0
    done := false
    closed := false
    waiters := 0 }

/-- File.Write: refused once done; otherwise writes at w, advances w by
the count stored, and performs the non-blocking send on `ready`, which
wakes exactly one parked receiver when there is one. -/
def File.write (f : File) (p : List Nat) : Nat × Option Err × File :=
  if f.done then (0, some .errDoneWriting, f)
  else
    let res := f.file.writeAt p f.w
    (res.1, res.2.1,
      { f with
          file := res.2.2
          w := f.w + res.1
          waiters := f.waiters - min 1 f.waiters })

/-- File.block: loops while off >= w; inside the loop it returns io.EOF
once done, and otherwise parks on `ready` — with no concurrent writer
that park never ends, hence `blocked`. -/
def File.block (f : File) (off : Int) : Outcome (Option Err) :=
  if f.w ≤ off then (if f.done then .ok (some .eof) else .blocked)
  else .ok none

/-- File.readCommon: the closed check, the negative-offset check, then block. -/
def File.readCommon (f : File) (off : Int) : Outcome (Option Err) :=
  if f.closed then .ok (some .errAlreadyClosed)
  else if off < 0 then .ok (some .errInvalidOffset)
  else f.block off

/-- File.Read: readCommon at the read cursor, then one read of the
buffer clamped by subSlice to w - r, at the backing file's own cursor,
advancing r by the count read. -/
def File.read (f : File) (len : Nat) : Outcome (Nat × Option Err × List Nat × File) :=
  match f.readCommon f.r with
  | .blocked => .blocked
  | .ok (some e) => .ok (0, some e, [], f)
  | .ok none =>
    let res := f.file.read (subSlice len (f.w - f.r))
    .ok (res.1, res.2.1, res.2.2.1, { f with file := res.2.2.2, r := f.r + res.1 })

/-- The loop of File.ReadAt: read the remaining buffer clamped to w - off
at off, advance, and stop on an error or a full buffer, otherwise block
for the next write and go round.  Encoded with fuel: an iteration either
breaks, shortens the buffer, or repeats an identical state forever, so
any terminating run of the Go loop breaks within len + 1 iterations and
fuel exhaustion (never reached from the call site's fuel) is divergence,
i.e. `blocked`.  Returns (remaining buffer length, error, bytes read). -/
def File.readAtLoop (f : File) : Nat → Nat → Int → Outcome (Nat × Option Err × List Nat)
  | 0, _, _ => .blocked
  | fuel + 1, len, off =>
    let res := f.file.readAt (subSlice len (f.w - off)) off
    let n := res.1
    let e := res.2.1
    let bs := res.2.2
    if e.isSome ∨ len - n = 0 then .ok (len - n, e, bs)
    else
      match f.block (off + n) with
      | .blocked => .blocked
      | .ok (some e2) => .ok (len - n, some e2, bs)
      | .ok none =>
        match f.readAtLoop fuel (len - n) (off + n) with
        | .blocked => .blocked
        | .ok (rem, e3, bs3) => .ok (rem, e3, bs ++ bs3)

/-- File.ReadAt: readCommon at off, then the loop; the count returned is
the initial buffer length minus what is left of it. -/
def File.readAt (f : File) (len : Nat) (off : Int) : Outcome (Nat × Option Err × List Nat) :=
  match f.readCommon off with
  | .blocked => .blocked
  | .ok (some e) => .ok (0, some e, [])
  | .ok none =>
    match f.readAtLoop (len + 2) len off with
    | .blocked => .blocked
    | .ok (rem, e, bs) => .ok (len - rem, e, bs)

/-- File.Seek: unknown whence is refused up front; the target position is
off (start), r + off (current) or maxInt64 (end); the loop then parks
until done or w reaches the target, and finally the backing file's Seek
runs and its result is assigned to r even on failure. -/
def File.seek (f : File) (off : Int) (whence : Int) : Outcome (Int × Option Err × File) :=
  if whence ≠ 0 ∧ whence ≠ 1 ∧ whence ≠ 2 then .ok (0, some .errInvalidWhence, f)
  else
    let newPos : Int :=
      if whence = 0 then off
      else if whence = 1 then f.r + off
      else 2 ^ 63 - 1
    if f.done = false ∧ f.w < newPos then .blocked
    else
      let res := f.file.seek off whence
      .ok (res.1, res.2.1, { f with file := res.2.2, r := res.1 })

/-- File.DoneWriting: one-way transition setting done and closing the
`ready` channel, which releases every parked receiver. -/
def File.doneWriting (f : File) : File :=
  if f.done then f else { f with done := true, waiters := 0 }

/-- File.Wait: loops receiving on `ready` until done. -/
def File.wait (f : File) : Outcome Unit :=
  if f.done then .ok () else .blocked

/-- File.Size: Wait, then return w. -/
def File.size (f : File) : Outcome Int :=
  match f.wait with
  | .blocked => .blocked
  | .ok _ => .ok f.w

/-- File.Close: a no-op once closed; otherwise DoneWriting, then close
the backing file — returning its error, with `closed` still unset, when
that fails — and only then set `closed`. -/
def File.close (f : File) : Option Err × File :=
  if f.closed then (none, f)
  else
    let f1 := f.doneWriting
    let res := f1.file.close
    match res.1 with
    | some e => (some e, { f1 with file := res.2 })
    | none => (none, { f1 with file := res.2, closed := true })

/-- Modelled from the spec: the `IsDone` method is absent from the source
files (only the repository's tests call it); per the spec it is a
non-blocking probe of the finalized flag. -/
def File.isDone (f : File) : Bool := f.done

/-- A sequence of Write calls, discarding counts and errors. -/
def File.writeAll (f : File) (ws : List (List Nat)) : File :=
  ws.foldl (fun g p => (g.write p).2.2) f

/-- Specification helper: the File state after a Read call, taken to be
the unchanged state when the call does not return. -/
def File.readEnd (f : File) (len : Nat) : File :=
  match f.read len with
  | .blocked => f
  | .ok res => res.2.2.2

/-- Specification helper: the File state after a Seek call, taken to be
the unchanged state when the call does not return. -/
def File.seekEnd (f : File) (off : Int) (whence : Int) : File :=
  match f.seek off whence with
  | .blocked => f
  | .ok res => res.2.2

/-- A File with two readers parked on the `ready` channel. -/
def twoWaiters : File :=
  { File.newFile with waiters := 2 }

/-- A File whose backing handle has been closed underneath it, the state
in which the backing file's Close reports an error. -/
def osClosedFile : File :=
  { File.newFile with file := { File.newFile.file with closed := true } }

/-- A finalized File holding the two bytes 7, 8. -/
def sampleDone : File :=
  { file := { data := [7, 8], cursor := 0, closed := false }
    r := 0
    w := 2
    done := true
    closed := false
    waiters := 0 }

/-! ### Helper lemmas -/

theorem subSlice_eq_min (pLen : Nat) (size : Int) :
    subSlice pLen size = min pLen size.toNat := by
  unfold subSlice
  split <;> omega

theorem write_step (f : File) (p : List Nat) (hd : f.done = false)
    (hfc : f.file.closed = false) (hw : (f.file.data.length : Int) = f.w) :
    f.write p = (p.length, none,
      File.mk ⟨f.file.data ++ p, f.file.cursor, f.file.closed⟩
        f.r (f.w + p.length) f.done f.closed (f.waiters - min 1 f.waiters)) := by
  have h0 : ¬ f.w < 0 := by omega
  have htn : f.w.toNat = f.file.data.length := by omega
  unfold File.write OsFile.writeAt
  rw [hd, hfc]
  simp [h0, htn, List.take_length, List.drop_eq_nil_of_le (Nat.le_add_right _ _)]

theorem writeAll_spec (ws : List (List Nat)) (f : File) (hd : f.done = false)
    (hfc : f.file.closed = false) (hw : (f.file.data.length : Int) = f.w) :
    (f.writeAll ws).file.data = f.file.data ++ ws.flatten ∧
    (f.writeAll ws).w = f.w + (ws.flatten.length : Int) ∧
    (f.writeAll ws).done = false ∧
    (f.writeAll ws).closed = f.closed ∧
    (f.writeAll ws).file.closed = false ∧
    (f.writeAll ws).r = f.r ∧
    (f.writeAll ws).file.cursor = f.file.cursor := by
  induction ws generalizing f with
  | nil => simp [File.writeAll, hd, hfc]
  | cons p ws ih =>
    have hl2 : (((f.file.data ++ p).length : Nat) : Int) = f.w + p.length := by
      rw [List.length_append]; push_cast; omega
    have hstep : f.writeAll (p :: ws) =
        (File.mk ⟨f.file.data ++ p, f.file.cursor, f.file.closed⟩
          f.r (f.w + p.length) f.done f.closed
          (f.waiters - min 1 f.waiters)).writeAll ws := by
      show ((f.write p).2.2).writeAll ws = _
      rw [write_step f p hd hfc hw]
    rw [hstep]
    have hres := ih (File.mk ⟨f.file.data ++ p, f.file.cursor, f.file.closed⟩
        f.r (f.w + p.length) f.done f.closed (f.waiters - min 1 f.waiters)) hd hfc hl2
    have hfl : (p :: ws).flatten.length = p.length + ws.flatten.length := by simp
    refine ⟨?_, ?_, hres.2.2.1, hres.2.2.2.1, hres.2.2.2.2.1,
      hres.2.2.2.2.2.1, hres.2.2.2.2.2.2⟩
    · rw [hres.1]; simp [List.append_assoc]
    · rw [hres.2.1]; simp only [hfl]; push_cast; ring_nf

theorem readAtLoop_eval (f : File) (fuel len : Nat) (off : Int)
    (hfc : f.file.closed = false) (hw : (f.file.data.length : Int) = f.w)
    (hoff : 0 ≤ off) (hlt : off < f.w) :
    f.readAtLoop (fuel + 1) len off =
      if min len (f.w - off).toNat = len then
        .ok (0, none, (f.file.data.drop off.toNat).take len)
      else if f.done then
        .ok (len - min len (f.w - off).toNat, some .eof,
          (f.file.data.drop off.toNat).take (min len (f.w - off).toNat))
      else .blocked := by
  have hu : ((f.w - off).toNat : Int) = f.w - off := Int.toNat_of_nonneg (by omega)
  have hoff2 : ¬ off < 0 := by omega
  have havail : ((f.file.data.length : Int) - off).toNat = (f.w - off).toNat := by
    rw [hw]
  have hmin : min (min len (f.w - off).toNat) (f.w - off).toNat
      = min len (f.w - off).toNat := by omega
  simp only [File.readAtLoop, OsFile.readAt, hfc, hoff2, subSlice_eq_min, havail, hmin,
    if_false, Bool.false_eq_true, ite_false]
  by_cases hfull : min len (f.w - off).toNat = len
  · have : ¬ min len (f.w - off).toNat < min len (f.w - off).toNat := by omega
    simp [hfull, this]
  · have hnlt : ¬ min len (f.w - off).toNat < min len (f.w - off).toNat := by omega
    have hrem : ¬ len - min len (f.w - off).toNat = 0 := by omega
    have hblk : f.w ≤ off + ((min len (f.w - off).toNat : Nat) : Int) := by omega
    rw [if_neg hfull]
    simp only [hnlt, ite_false, Option.isSome_none, Bool.false_eq_true, false_or, hrem,
      if_false, File.block]
    rw [if_pos hblk]
    cases hd : f.done <;> simp

theorem osReadAt_spec (fl : OsFile) (len' : Nat) (off : Int) (hoff : 0 ≤ off) :
    (fl.readAt len' off).1 ≤ len' ∧
    (fl.readAt len' off).2.2 = (fl.data.drop off.toNat).take (fl.readAt len' off).1 := by
  have h2 : ¬ off < 0 := by omega
  unfold OsFile.readAt
  by_cases h1 : fl.closed = true
  · simp [h1]
  · rw [if_neg (by simp [h1]), if_neg h2]
    dsimp only
    exact ⟨by omega, rfl⟩

theorem readAtLoop_bound (f : File) (fuel : Nat) :
    ∀ len : Nat, ∀ off : Int, 0 ≤ off →
      ∀ rem e bs, f.readAtLoop fuel len off = .ok (rem, e, bs) →
        rem ≤ len ∧ bs = (f.file.data.drop off.toNat).take (len - rem) ∧
        ((len - rem : Nat) : Int) ≤ max 0 (f.w - off) := by
  induction fuel with
  | zero =>
    intro len off _ rem e bs h
    exact absurd h (by simp [File.readAtLoop])
  | succ fuel ih =>
    intro len off hoff rem e bs h
    rw [File.readAtLoop] at h
    rcases hsp : f.file.readAt (subSlice len (f.w - off)) off with ⟨n, e1, bs1⟩
    rw [hsp] at h
    dsimp only at h
    have hos := osReadAt_spec f.file (subSlice len (f.w - off)) off hoff
    rw [hsp] at hos
    dsimp only at hos
    have hnle : n ≤ len := le_trans hos.1 (by rw [subSlice_eq_min]; omega)
    have hnw : (n : Int) ≤ max 0 (f.w - off) := by
      have := hos.1
      rw [subSlice_eq_min] at this
      omega
    have hbs1 : bs1 = (f.file.data.drop off.toNat).take n := hos.2
    by_cases hbrk : e1.isSome = true ∨ len - n = 0
    · rw [if_pos hbrk] at h
      rcases h with ⟨⟩
      refine ⟨by omega, ?_, by omega⟩
      rw [hbs1]
      congr 1
      omega
    · rw [if_neg hbrk] at h
      unfold File.block at h
      by_cases hwle : f.w ≤ off + (n : Int)
      · rw [if_pos hwle] at h
        by_cases hd : f.done = true
        · rw [if_pos hd] at h
          dsimp only at h
          rcases h with ⟨⟩
          refine ⟨by omega, ?_, by omega⟩
          rw [hbs1]
          congr 1
          omega
        · rw [if_neg hd] at h
          exact absurd h (by simp)
      · rw [if_neg hwle] at h
        dsimp only at h
        rcases hrec : f.readAtLoop fuel (len - n) (off + (n : Int)) with ⟨⟨rem2, e3, bs3⟩⟩ | _
        · rw [hrec] at h
          dsimp only at h
          rcases h with ⟨⟩
          have hihres := ih (len - n) (off + (n : Int)) (by omega) _ _ _ hrec
          refine ⟨by omega, ?_, by omega⟩
          rw [hbs1, hihres.2.1]
          have htn : (off + (n : Int)).toNat = off.toNat + n := by omega
          rw [htn, ← List.drop_drop, ← List.take_add]
          congr 1
          omega
        · rw [hrec] at h
          exact absurd h (by simp)

theorem readAt_eval (f : File) (len : Nat) (off : Int) (hc : f.closed = false)
    (hfc : f.file.closed = false) (hw : (f.file.data.length : Int) = f.w)
    (hoff : 0 ≤ off) :
    f.readAt len off =
      if f.w ≤ off then (if f.done then .ok (0, some .eof, []) else .blocked)
      else if min len (f.w - off).toNat = len then
        .ok (len, none, (f.file.data.drop off.toNat).take len)
      else if f.done then
        .ok (min len (f.w - off).toNat, some .eof,
          (f.file.data.drop off.toNat).take (min len (f.w - off).toNat))
      else .blocked := by
  have hoff2 : ¬ off < 0 := by omega
  unfold File.readAt File.readCommon File.block
  rw [hc]
  by_cases hb : f.w ≤ off
  · simp only [hb, hoff2, if_true, if_false, ite_true, Bool.false_eq_true]
    cases f.done <;> simp
  · have hlt : off < f.w := by omega
    have hloop := readAtLoop_eval f (len + 1) len off hfc hw hoff hlt
    simp only [Bool.false_eq_true, if_false, hoff2, hb, ite_false]
    rw [hloop]
    by_cases hfull : min len (f.w - off).toNat = len
    · simp [hfull]
    · have hle : min len (f.w - off).toNat ≤ len := by omega
      cases hd : f.done <;> simp [hfull, hd]
      omega

theorem read_eval (f : File) (len : Nat) (hc : f.closed = false)
    (hfc : f.file.closed = false) (hw : (f.file.data.length : Int) = f.w)
    (hcur : f.file.cursor = f.r) (hr0 : 0 ≤ f.r) :
    f.read len =
      if f.w ≤ f.r then (if f.done then .ok (0, some .eof, [], f) else .blocked)
      else
        .ok (min len (f.w - f.r).toNat, none,
          (f.file.data.drop f.r.toNat).take (min len (f.w - f.r).toNat),
          { f with
              file := { f.file with
                cursor := f.r + ((min len (f.w - f.r).toNat : Nat) : Int) }
              r := f.r + ((min len (f.w - f.r).toNat : Nat) : Int) }) := by
  have hr2 : ¬ f.r < 0 := by omega
  unfold File.read File.readCommon File.block OsFile.read
  rw [hc]
  by_cases hb : f.w ≤ f.r
  · rw [if_neg (by simp), if_neg hr2, if_pos hb, if_pos hb]
    cases hd : f.done <;> simp
  · rw [if_neg (by simp), if_neg hr2, if_neg hb, if_neg hb]
    dsimp only
    rw [hfc]
    have havail : ((f.file.data.length : Int) - f.file.cursor).toNat
        = (f.w - f.r).toNat := by rw [hw, hcur]
    have hn : min (subSlice len (f.w - f.r)) ((f.w - f.r).toNat)
        = min len (f.w - f.r).toNat := by rw [subSlice_eq_min]; omega
    simp only [Bool.false_eq_true, if_false, havail, hn]
    rw [if_neg (show ¬ (min len (f.w - f.r).toNat = 0 ∧ 0 < subSlice len (f.w - f.r)) by
      rw [subSlice_eq_min]; omega)]
    rw [hcur]

/-! ### Claim theorems -/

/-- C2 counterexample: the claim says Seek with whence = start returns
immediately without blocking even when the target exceeds writeOffset.
On a fresh File (writeOffset 0, not finalized), Seek(1, start) parks on
the `ready` channel instead: the call blocks. -/
theorem seek_nonblocking_cex : File.newFile.seek 1 0 = .blocked := by rfl

/-- C2 (amended): for whence = start or current, Seek blocks while the
File is not finalized and writeOffset is below the target position; once
the target is within writeOffset or the File is finalized, it sets the
read cursor (and the backing file's cursor) to the target and returns it
without error. -/
theorem seek_start_current_blocking (f : File) (off : Int)
    (hfc : f.file.closed = false) (hcur : f.file.cursor = f.r) :
    (f.done = false → f.w < off → f.seek off 0 = .blocked) ∧
    (f.done = false → f.w < f.r + off → f.seek off 1 = .blocked) ∧
    (0 ≤ off → (f.done = true ∨ off ≤ f.w) →
      f.seek off 0 = .ok (off, none,
        { f with file := { f.file with cursor := off }, r := off })) ∧
    (0 ≤ f.r + off → (f.done = true ∨ f.r + off ≤ f.w) →
      f.seek off 1 = .ok (f.r + off, none,
        { f with file := { f.file with cursor := f.r + off }, r := f.r + off })) := by
  have e00 : ((0 : Int) = 0) = True := by norm_num
  have e10 : ((1 : Int) = 0) = False := by norm_num
  have e11 : ((1 : Int) = 1) = True := by norm_num
  refine ⟨?_, ?_, ?_, ?_⟩
  · intro hd hlt
    unfold File.seek
    rw [if_neg (by norm_num)]
    simp only [e00, if_true]
    rw [if_pos ⟨hd, hlt⟩]
  · intro hd hlt
    unfold File.seek
    rw [if_neg (by norm_num)]
    simp only [e10, e11, if_true, if_false]
    rw [if_pos ⟨hd, hlt⟩]
  · intro h0 hcase
    unfold File.seek OsFile.seek
    rw [if_neg (by norm_num)]
    simp only [e00, if_true]
    rw [if_neg (show ¬ (f.done = false ∧ f.w < off) by
      intro hcon
      rcases hcase with h | h
      · rw [h] at hcon; exact absurd hcon.1 (by simp)
      · exact absurd hcon.2 (by omega))]
    rw [hfc]
    rw [if_neg (by simp), if_neg (show ¬ off < 0 by omega)]
  · intro h0 hcase
    unfold File.seek OsFile.seek
    rw [if_neg (by norm_num)]
    simp only [e10, e11, if_true, if_false]
    rw [if_neg (show ¬ (f.done = false ∧ f.w < f.r + off) by
      intro hcon
      rcases hcase with h | h
      · rw [h] at hcon; exact absurd hcon.1 (by simp)
      · exact absurd hcon.2 (by omega))]
    rw [hfc]
    rw [if_neg (by simp), hcur, if_neg (show ¬ f.r + off < 0 by omega)]

/-- C2 witness for the amended theorem, at a concrete input: on a fresh
File, a Seek to the already-covered position 0 returns at once with the
cursor set there. -/
theorem seek_start_current_blocking_witness :
    File.newFile.file.closed = false ∧
    File.newFile.file.cursor = File.newFile.r ∧
    File.newFile.seek 0 0 = .ok (0, none,
      { File.newFile with
          file := { File.newFile.file with cursor := 0 }, r := 0 }) :=
  ⟨rfl, rfl, (seek_start_current_blocking File.newFile 0 rfl rfl).2.2.1
    (by decide) (Or.inr (by decide))⟩

theorem readback_core (g : File) (bs : List Nat) (hdone : g.done = true)
    (hc : g.closed = false) (hfc : g.file.closed = false)
    (hdata : g.file.data = bs) (hw : g.w = (bs.length : Int))
    (hr : g.r = 0) (hcur : g.file.cursor = 0) :
    g.readAt bs.length 0 =
      .ok (bs.length, if bs.length = 0 then some Err.eof else none, bs) ∧
    (match g.read bs.length with
      | .blocked => False
      | .ok res => res.1 = bs.length ∧ res.2.2.1 = bs) := by
  have hwlen : (g.file.data.length : Int) = g.w := by rw [hdata, hw]
  constructor
  · rw [readAt_eval g bs.length 0 hc hfc hwlen (by omega)]
    by_cases hL : bs.length = 0
    · rw [if_pos (by omega), if_pos hdone, if_pos hL]
      simp [hL, List.length_eq_zero.mp hL]
    · rw [if_neg (by omega), if_pos (show min bs.length (g.w - 0).toNat = bs.length by omega),
        if_neg hL]
      simp [hdata]
  · rw [read_eval g bs.length hc hfc hwlen (by rw [hcur, hr]) (by omega)]
    by_cases hL : bs.length = 0
    · rw [if_pos (by omega), if_pos hdone]
      simp [hL, List.length_eq_zero.mp hL]
    · rw [if_neg (by omega)]
      have hmin : min bs.length (g.w - g.r).toNat = bs.length := by omega
      simp [hmin, hr, hdata]
      omega

/-- C1: for every sequence of Write calls followed by DoneWriting, a
ReadAt of the final size at offset 0 returns exactly the concatenation of
the written byte slices in write order, and a full sequential Read
starting at cursor 0 delivers the same bytes. -/
theorem readback_concatenation (ws : List (List Nat)) :
    ((File.newFile.writeAll ws).doneWriting).readAt ws.flatten.length 0 =
      .ok (ws.flatten.length,
        if ws.flatten.length = 0 then some Err.eof else none, ws.flatten) ∧
    (match ((File.newFile.writeAll ws).doneWriting).read ws.flatten.length with
      | .blocked => False
      | .ok res => res.1 = ws.flatten.length ∧ res.2.2.1 = ws.flatten) := by
  obtain ⟨hdata, hww, hdone, hclosed, hfc, hr, hcur⟩ :=
    writeAll_spec ws File.newFile rfl rfl rfl
  have hgd : (File.newFile.writeAll ws).doneWriting
      = { File.newFile.writeAll ws with done := true, waiters := 0 } := by
    unfold File.doneWriting
    rw [if_neg (by rw [hdone]; simp)]
  rw [hgd]
  exact readback_core _ ws.flatten rfl (by simpa [File.newFile] using hclosed)
    (by simpa [File.newFile] using hfc) (by simpa [File.newFile] using hdata)
    (by simpa [File.newFile] using hww) (by simpa [File.newFile] using hr)
    (by simpa [File.newFile] using hcur)

/-- C3: a ReadAt with a nonnegative offset on a non-closed File either
blocks, or returns the full buffer count with no error, or returns the
count of bytes actually delivered together with end-of-stream; the bytes
delivered always match the count. -/
theorem readAt_full_or_eof (f : File) (len : Nat) (off : Int)
    (hc : f.closed = false) (hfc : f.file.closed = false)
    (hw : (f.file.data.length : Int) = f.w) (hoff : 0 ≤ off) :
    match f.readAt len off with
    | .blocked => True
    | .ok res => res.2.2.length = res.1 ∧
        ((res.1 = len ∧ res.2.1 = none) ∨ (res.2.1 = some .eof ∧ res.1 ≤ len)) := by
  rw [readAt_eval f len off hc hfc hw hoff]
  by_cases hb : f.w ≤ off
  · rw [if_pos hb]
    by_cases hd : f.done = true
    · rw [if_pos hd]
      exact ⟨rfl, Or.inr ⟨rfl, by omega⟩⟩
    · rw [if_neg hd]
      trivial
  · rw [if_neg hb]
    by_cases hfull : min len (f.w - off).toNat = len
    · rw [if_pos hfull]
      refine ⟨?_, Or.inl ⟨rfl, rfl⟩⟩
      simp only [List.length_take, List.length_drop]
      omega
    · rw [if_neg hfull]
      by_cases hd : f.done = true
      · rw [if_pos hd]
        refine ⟨?_, Or.inr ⟨rfl, by omega⟩⟩
        simp only [List.length_take, List.length_drop]
        omega
      · rw [if_neg hd]
        trivial

/-- C3 witness: on a finalized two-byte File, a one-byte ReadAt at
offset 0 satisfies the contract. -/
theorem readAt_full_or_eof_witness :
    sampleDone.closed = false ∧ sampleDone.file.closed = false ∧
    ((sampleDone.file.data.length : Int) = sampleDone.w) ∧ ((0 : Int) ≤ 0) ∧
    (match sampleDone.readAt 1 0 with
      | .blocked => True
      | .ok res => res.2.2.length = res.1 ∧
          ((res.1 = 1 ∧ res.2.1 = none) ∨ (res.2.1 = some .eof ∧ res.1 ≤ 1))) :=
  ⟨rfl, rfl, by decide, by decide,
    readAt_full_or_eof sampleDone 1 0 rfl rfl (by decide) (by decide)⟩

/-- C4: once DoneWriting has been called, Write returns
(0, AlreadyFinalized) without touching any state, and writeOffset never
changes again: DoneWriting, Close, Read and Seek all leave w intact. -/
theorem write_after_done (f : File) (p : List Nat) (len : Nat)
    (off whence : Int) (h : f.done = true) :
    f.write p = (0, some .errDoneWriting, f) ∧
    (f.doneWriting).w = f.w ∧
    (f.close).2.w = f.w ∧
    (f.readEnd len).w = f.w ∧
    (f.seekEnd off whence).w = f.w := by
  refine ⟨?_, ?_, ?_, ?_, ?_⟩
  · unfold File.write
    rw [if_pos h]
  · unfold File.doneWriting
    split <;> rfl
  · unfold File.close
    split
    · rfl
    · dsimp only
      split
      · show (f.doneWriting).w = f.w
        unfold File.doneWriting
        split <;> rfl
      · show (f.doneWriting).w = f.w
        unfold File.doneWriting
        split <;> rfl
  · unfold File.readEnd File.read
    rcases hrc : f.readCommon f.r with ⟨oe⟩ | _
    · cases oe <;> rfl
    · rfl
  · unfold File.seekEnd File.seek
    by_cases h1 : whence ≠ 0 ∧ whence ≠ 1 ∧ whence ≠ 2
    · rw [if_pos h1]
    · rw [if_neg h1]
      dsimp only
      by_cases h2 : f.done = false ∧
          f.w < (if whence = 0 then off else if whence = 1 then f.r + off else 2 ^ 63 - 1)
      · rw [if_pos h2]
      · rw [if_neg h2]

/-- C4 witness: on a concrete finalized File all the preservation facts
hold at once. -/
theorem write_after_done_witness :
    sampleDone.done = true ∧
    (sampleDone.write [5] = (0, some .errDoneWriting, sampleDone) ∧
      (sampleDone.doneWriting).w = sampleDone.w ∧
      (sampleDone.close).2.w = sampleDone.w ∧
      (sampleDone.readEnd 1).w = sampleDone.w ∧
      (sampleDone.seekEnd 0 0).w = sampleDone.w) :=
  ⟨rfl, write_after_done sampleDone [5] 1 0 0 rfl⟩

/-- C5 counterexample: the claim says every Write performs a
broadcast-style wake of all blocked waiters.  With two readers parked on
the `ready` channel, a Write's non-blocking send wakes only one: one
waiter is still parked afterwards. -/
theorem write_single_wake_cex :
    twoWaiters.waiters = 2 ∧ ((twoWaiters.write [0]).2.2).waiters = 1 := by decide

/-- C5 (amended): a Write (before finalization) wakes exactly one parked
waiter when any exists and none otherwise — a single-waiter signal —
while DoneWriting closes the channel, waking all parked waiters. -/
theorem wake_single_signal_vs_broadcast (f : File) (p : List Nat)
    (h : f.done = false) :
    ((f.write p).2.2).waiters = f.waiters - min 1 f.waiters ∧
    (f.doneWriting).waiters = 0 := by
  constructor
  · unfold File.write
    rw [if_neg (by rw [h]; simp)]
  · unfold File.doneWriting
    rw [if_neg (by rw [h]; simp)]

/-- C5 witness: the amended wake semantics at a concrete File with two
parked waiters. -/
theorem wake_single_signal_witness :
    twoWaiters.done = false ∧
    (((twoWaiters.write [0]).2.2).waiters
        = twoWaiters.waiters - min 1 twoWaiters.waiters ∧
      (twoWaiters.doneWriting).waiters = 0) :=
  ⟨rfl, wake_single_signal_vs_broadcast twoWaiters [0] rfl⟩

/-- C6: Size is Wait followed by returning writeOffset: it does not
return while the File is not finalized, and once finalized it returns
exactly writeOffset — for a File built by a sequence of writes then
DoneWriting, exactly the total number of bytes written. -/
theorem size_waits_then_returns_total (f : File) (ws : List (List Nat)) :
    f.size = (if f.done = true then Outcome.ok f.w else .blocked) ∧
    ((File.newFile.writeAll ws).doneWriting).size
      = .ok (ws.flatten.length : Int) := by
  constructor
  · cases hd : f.done <;> simp [File.size, File.wait, hd]
  · obtain ⟨_, hww, hdone, _, _, _, _⟩ :=
      writeAll_spec ws File.newFile rfl rfl rfl
    have hgd : (File.newFile.writeAll ws).doneWriting
        = { File.newFile.writeAll ws with done := true, waiters := 0 } := by
      unfold File.doneWriting
      rw [if_neg (by rw [hdone]; simp)]
    rw [hgd]
    simp [File.size, File.wait]
    simpa [File.newFile] using hww

/-- C7 counterexample: the claim says an IOFailure during Close leaves
the File in the closed state.  On a File whose backing handle already
failed (is closed underneath), Close reports the error and leaves the
`closed` flag unset. -/
theorem close_fail_not_closed_cex :
    (osClosedFile.close).1 = some Err.osErrClosed ∧
    (osClosedFile.close).2.closed = false := by decide

/-- C7 (amended): Close is idempotent — on an already-closed File it is a
no-op returning no error, and a first call finalizes, releases the
backing store and marks the File closed; but when the backing store's
close fails, the error is returned with the File finalized yet not
marked closed, so a later Close retries the release. -/
theorem close_idempotent_first_call (f : File) :
    (f.closed = true → f.close = (none, f)) ∧
    (f.closed = false → f.file.closed = false →
      f.close = (none, { f.doneWriting with
        file := { f.file with closed := true }, closed := true })) ∧
    (f.closed = false → f.file.closed = true →
      f.close = (some .osErrClosed, f.doneWriting)) := by
  refine ⟨?_, ?_, ?_⟩
  · intro h
    unfold File.close
    rw [if_pos h]
  · intro h hf
    unfold File.close File.doneWriting OsFile.close
    rw [if_neg (by simp [h])]
    by_cases hd : f.done = true
    · rw [if_pos hd]
      dsimp only
      rw [if_neg (by simp [hf])]
    · rw [if_neg hd]
      dsimp only
      rw [if_neg (by simp [hf])]
  · intro h hf
    unfold File.close File.doneWriting OsFile.close
    rw [if_neg (by simp [h])]
    by_cases hd : f.done = true
    · rw [if_pos hd]
      dsimp only
      rw [if_pos hf]
    · rw [if_neg hd]
      dsimp only
      rw [if_pos hf]

/-- C7 witness: a successful first Close on a fresh File finalizes,
closes the backing handle and sets the closed flag. -/
theorem close_idempotent_witness :
    File.newFile.closed = false ∧ File.newFile.file.closed = false ∧
    File.newFile.close = (none, { File.newFile.doneWriting with
      file := { File.newFile.file with closed := true }, closed := true }) :=
  ⟨rfl, rfl, (close_idempotent_first_call File.newFile).2.1 rfl rfl⟩

/-- C8: no Read or ReadAt ever delivers bytes at positions at or beyond
writeOffset as it stands at the time of the call: the count returned is
bounded by writeOffset minus the start position, and the bytes delivered
are exactly the backing data in the window starting there. -/
theorem reads_clamped_to_writeOffset (f : File) (len : Nat) (off : Int)
    (hoff : 0 ≤ off) (hcur : f.file.cursor = f.r) :
    (match f.readAt len off with
      | .blocked => True
      | .ok res => (res.1 : Int) ≤ max 0 (f.w - off) ∧
          res.2.2 = (f.file.data.drop off.toNat).take res.1) ∧
    (match f.read len with
      | .blocked => True
      | .ok res => (res.1 : Int) ≤ max 0 (f.w - f.r) ∧
          res.2.2.1 = (f.file.data.drop f.r.toNat).take res.1) := by
  constructor
  · unfold File.readAt File.readCommon File.block
    by_cases hc : f.closed = true
    · rw [if_pos hc]
      exact ⟨by omega, by simp⟩
    · rw [if_neg (by simp [hc]), if_neg (show ¬ off < 0 by omega)]
      by_cases hb : f.w ≤ off
      · rw [if_pos hb]
        by_cases hd : f.done = true
        · rw [if_pos hd]
          exact ⟨by omega, by simp⟩
        · rw [if_neg hd]
          trivial
      · rw [if_neg hb]
        dsimp only
        rcases hrl : f.readAtLoop (len + 2) len off with ⟨⟨rem, e1, bs1⟩⟩ | _
        · have hbd := readAtLoop_bound f (len + 2) len off hoff _ _ _ hrl
          exact ⟨hbd.2.2, hbd.2.1⟩
        · trivial
  · unfold File.read File.readCommon File.block OsFile.read
    by_cases hc : f.closed = true
    · rw [if_pos hc]
      exact ⟨by omega, by simp⟩
    · rw [if_neg (by simp [hc])]
      by_cases hr0 : f.r < 0
      · rw [if_pos hr0]
        exact ⟨by omega, by simp⟩
      · rw [if_neg hr0]
        by_cases hb : f.w ≤ f.r
        · rw [if_pos hb]
          by_cases hd : f.done = true
          · rw [if_pos hd]
            exact ⟨by omega, by simp⟩
          · rw [if_neg hd]
            trivial
        · rw [if_neg hb]
          dsimp only
          by_cases hfcl : f.file.closed = true
          · rw [if_pos hfcl]
            exact ⟨by omega, by simp⟩
          · rw [if_neg (by simp [hfcl])]
            dsimp only
            constructor
            · have h1 : subSlice len (f.w - f.r) = min len (f.w - f.r).toNat :=
                subSlice_eq_min len (f.w - f.r)
              omega
            · rw [hcur]

/-- C8 witness: the clamping bound at a concrete finalized File. -/
theorem reads_clamped_witness :
    ((0 : Int) ≤ 0) ∧ sampleDone.file.cursor = sampleDone.r ∧
    ((match sampleDone.readAt 1 0 with
      | .blocked => True
      | .ok res => (res.1 : Int) ≤ max 0 (sampleDone.w - 0) ∧
          res.2.2 = (sampleDone.file.data.drop (0 : Int).toNat).take res.1) ∧
    (match sampleDone.read 1 with
      | .blocked => True
      | .ok res => (res.1 : Int) ≤ max 0 (sampleDone.w - sampleDone.r) ∧
          res.2.2.1 = (sampleDone.file.data.drop sampleDone.r.toNat).take res.1)) :=
  ⟨by decide, rfl, reads_clamped_to_writeOffset sampleDone 1 0 (by decide) rfl⟩

/-- C9: IsDone is a non-blocking probe of the finalized flag: it returns
the current value of `done` — true after DoneWriting, false on a fresh
File.  (The method is modelled from the spec, being absent from the
sources; see File.isDone.) -/
theorem isDone_probe (f : File) :
    f.isDone = f.done ∧ (f.doneWriting).isDone = true ∧
    File.newFile.isDone = false := by
  refine ⟨rfl, ?_, rfl⟩
  unfold File.doneWriting File.isDone
  split <;> simp_all

/-- C10: Seek with an unrecognized whence (not 0 = start, 1 = current,
2 = end) returns (0, InvalidWhence) and leaves the File — read cursor
included — completely unchanged. -/
theorem seek_invalid_whence (f : File) (off whence : Int)
    (h0 : whence ≠ 0) (h1 : whence ≠ 1) (h2 : whence ≠ 2) :
    f.seek off whence = .ok (0, some .errInvalidWhence, f) := by
  unfold File.seek
  rw [if_pos ⟨h0, h1, h2⟩]

/-- C10 witness: Seek with whence 7 on a fresh File fails with
InvalidWhence and changes nothing. -/
theorem seek_invalid_whence_witness :
    ((7 : Int) ≠ 0) ∧ ((7 : Int) ≠ 1) ∧ ((7 : Int) ≠ 2) ∧
    File.newFile.seek 0 7 = .ok (0, some .errInvalidWhence, File.newFile) :=
  ⟨by decide, by decide, by decide,
    seek_invalid_whence File.newFile 0 7 (by decide) (by decide) (by decide)⟩

end Seekstream
